import Mathlib

/-!
Shallow embedding of the fsdb library (src/lib.rs): a filesystem-backed
key-value store.  The filesystem is modelled as a tree of named nodes,
paths as lists of segments, and the msgpack codec as an abstract
encode/decode pair.  Rust functions that can panic (String.truncate on a
non-character-boundary) are modelled with Option, none standing for the
panic.  Mutating operations return the resulting filesystem alongside the
result, since Rust errors do not roll back filesystem changes.
-/

/-- Kinds of I/O errors the modelled filesystem can produce. -/
inductive IoKind where
  | notFound
  | alreadyExists
  | notADirectory
  | isADirectory
  | other
deriving DecidableEq, Repr

/-- The error type of the library (enum Error in src/lib.rs):
an I/O error, an encode error, or a decode error. -/
inductive Error where
  | io (k : IoKind)
  | encode
  | decode
deriving DecidableEq, Repr

/-- A filesystem node: a regular file with byte contents, or a directory
with a list of named entries. -/
inductive Node where
  | file (data : List Nat)
  | dir (entries : List (String × Node))

/-- Look up a name in a directory entry list (first match). -/
def lookupEntry (s : String) : List (String × Node) → Option Node
  | [] => none
  | (k, n) :: es => if k = s then some n else lookupEntry s es

/-- Replace the entry named s (first occurrence) by n, or append it. -/
def setEntry (es : List (String × Node)) (s : String) (n : Node) :
    List (String × Node) :=
  match es with
  | [] => [(s, n)]
  | (k, v) :: rest =>
      if k = s then (s, n) :: rest else (k, v) :: setEntry rest s n

/-- Remove every entry named s. -/
def removeEntry : List (String × Node) → String → List (String × Node)
  | [], _ => []
  | (k, v) :: rest, s =>
      if k = s then removeEntry rest s else (k, v) :: removeEntry rest s

/-- Resolve a path from a node, returning the node it denotes if any. -/
def findAt : List String → Node → Option Node
  | [], n => some n
  | _ :: _, Node.file _ => none
  | s :: rest, Node.dir es =>
      match lookupEntry s es with
      | some n => findAt rest n
      | none => none

/-- Path.exists of the Rust standard library: true iff the path resolves
to some filesystem entity (file or directory). -/
def existsAt (p : List String) (fs : Node) : Bool :=
  (findAt p fs).isSome

/-- Walk to the parent directory of a path and transform its entry list
with the given handler; errors if the walk fails. -/
def modifyAt (f : String → List (String × Node) → Except IoKind (List (String × Node))) :
    List String → Node → Except IoKind Node
  | [], _ => .error .other
  | [s], Node.dir es => (f s es).map Node.dir
  | [_], Node.file _ => .error .notADirectory
  | s :: s2 :: rest, Node.dir es =>
      match lookupEntry s es with
      | some child =>
          (modifyAt f (s2 :: rest) child).map (fun c => Node.dir (setEntry es s c))
      | none => .error .notFound
  | _ :: _ :: _, Node.file _ => .error .notADirectory

/-- File.create followed by a full write: create or truncate the file at
the path; fails if the parent is missing or the target is a directory. -/
def writeFileAt (p : List String) (data : List Nat) (fs : Node) :
    Except IoKind Node :=
  modifyAt (fun s es =>
    match lookupEntry s es with
    | some (Node.dir _) => .error .isADirectory
    | _ => .ok (setEntry es s (Node.file data))) p fs

/-- fs.create_dir: create a single directory level; fails if the parent
is missing or the path already exists. -/
def createDirAt (p : List String) (fs : Node) : Except IoKind Node :=
  modifyAt (fun s es =>
    match lookupEntry s es with
    | some _ => .error .alreadyExists
    | none => .ok (setEntry es s (Node.dir []))) p fs

/-- fs.remove_file: delete the file at the path; fails if it is missing
or is a directory. -/
def removeFileAt (p : List String) (fs : Node) : Except IoKind Node :=
  modifyAt (fun s es =>
    match lookupEntry s es with
    | some (Node.file _) => .ok (removeEntry es s)
    | some (Node.dir _) => .error .isADirectory
    | none => .error .notFound) p fs

/-- fs.remove_dir_all: recursively delete the directory at the path;
fails if it is missing or is a regular file. -/
def removeDirAllAt (p : List String) (fs : Node) : Except IoKind Node :=
  modifyAt (fun s es =>
    match lookupEntry s es with
    | some (Node.dir _) => .ok (removeEntry es s)
    | some (Node.file _) => .error .notADirectory
    | none => .error .notFound) p fs

/-- fs.create_dir_all: create the directory and all missing ancestors;
succeeds if the directory already exists, fails if a prefix is a file. -/
def createDirAllAt : List String → Node → Except IoKind Node
  | [], Node.dir es => .ok (Node.dir es)
  | [], Node.file _ => .error .alreadyExists
  | s :: rest, Node.dir es =>
      match lookupEntry s es with
      | some child =>
          (createDirAllAt rest child).map (fun c => Node.dir (setEntry es s c))
      | none =>
          (createDirAllAt rest (Node.dir [])).map (fun c => Node.dir (setEntry es s c))
  | _ :: _, Node.file _ => .error .notADirectory

/-- fs.read_dir: list the entry names of the directory at the path. -/
def readDirAt (p : List String) (fs : Node) : Except IoKind (List String) :=
  match findAt p fs with
  | some (Node.dir es) => .ok (es.map Prod.fst)
  | some (Node.file _) => .error .notADirectory
  | none => .error .notFound

/-- The external serialization codec (rmp_serde in the source): encoding
may fail (Encode error), decoding may fail (Decode error). -/
structure Codec (V : Type) where
  enc : V → Option (List Nat)
  dec : List Nat → Option V

/-- Sum of the UTF-8 byte sizes of a list of characters. -/
def utf8Len : List Char → Nat
  | [] => 0
  | c :: cs => c.utf8Size + utf8Len cs

/-- Rust String.truncate(max) on a character list: keeps the longest
prefix of byte length at most max; no-op when max is at least the byte
length; panics (none) when max falls strictly inside a character. -/
def truncChars : List Char → Nat → Option (List Char)
  | _, 0 => some []
  | [], _ + 1 => some []
  | c :: cs, n + 1 =>
      if c.utf8Size ≤ n + 1 then
        (truncChars cs (n + 1 - c.utf8Size)).map (fun r => c :: r)
      else
        none

/-- Rust String.truncate(max) on a string (none = panic). -/
def rustTruncate (s : String) (max : Nat) : Option String :=
  (truncChars s.data max).map String.mk

/-- struct Bucket in src/lib.rs: a directory path and an optional maximum
file-name length.  The value-type parameter is phantom in the source and
is carried here by the Codec argument of each operation. -/
structure Bucket where
  dir : List String
  max_file_name : Option Nat

/-- struct Fsdb in src/lib.rs: the store handle, a base directory path. -/
structure Fsdb where
  dir : List String

/-- Bucket::maxify: truncate the key to the configured maximum if one is
set (Rust String.truncate, so none = panic), else return it unchanged. -/
def Bucket.maxify (b : Bucket) (name : String) : Option String :=
  match b.max_file_name with
  | some max => rustTruncate name max
  | none => some name

/-- Bucket::fs_put: File::create (leaving an empty file), then encode and
write the value.  The returned node is the filesystem after the call,
also on the error paths. -/
def fs_put {V : Type} (cd : Codec V) (p : List String) (v : V) (fs : Node) :
    Except Error Unit × Node :=
  match writeFileAt p [] fs with
  | .error k => (.error (.io k), fs)
  | .ok fs1 =>
      match cd.enc v with
      | none => (.error .encode, fs1)
      | some bs =>
          match writeFileAt p bs fs1 with
          | .error k => (.error (.io k), fs1)
          | .ok fs2 => (.ok (), fs2)

/-- Bucket::fs_get: File::open then decode. -/
def fs_get {V : Type} (cd : Codec V) (p : List String) (fs : Node) :
    Except Error V :=
  match findAt p fs with
  | none => .error (.io .notFound)
  | some (Node.dir _) => .error (.io .isADirectory)
  | some (Node.file data) =>
      match cd.dec data with
      | none => .error .decode
      | some v => .ok v

/-- Bucket::fs_remove: std::fs::remove_file. -/
def fs_remove (p : List String) (fs : Node) : Except Error Unit × Node :=
  match removeFileAt p fs with
  | .error k => (.error (.io k), fs)
  | .ok fs1 => (.ok (), fs1)

/-- Bucket::fs_list: fs::read_dir, collecting the entry file names. -/
def fs_list (p : List String) (fs : Node) : Except Error (List String) :=
  match readDirAt p fs with
  | .error k => .error (.io k)
  | .ok names => .ok names

/-- Bucket::fs_clear: fs::remove_dir_all. -/
def fs_clear (p : List String) (fs : Node) : Except Error Unit × Node :=
  match removeDirAllAt p fs with
  | .error k => (.error (.io k), fs)
  | .ok fs1 => (.ok (), fs1)

/-- Bucket::exists: Path.exists at dir/maxify(key); none = maxify panic. -/
def Bucket.exists (b : Bucket) (key : String) (fs : Node) : Option Bool :=
  (b.maxify key).map (fun nm => existsAt (b.dir ++ [nm]) fs)

/-- Bucket::put: write the value at dir/maxify(key). -/
def Bucket.put {V : Type} (cd : Codec V) (b : Bucket) (key : String) (v : V)
    (fs : Node) : Option (Except Error Unit × Node) :=
  (b.maxify key).map (fun nm => fs_put cd (b.dir ++ [nm]) v fs)

/-- Bucket::get: read and decode the value at dir/maxify(key). -/
def Bucket.get {V : Type} (cd : Codec V) (b : Bucket) (key : String)
    (fs : Node) : Option (Except Error V) :=
  (b.maxify key).map (fun nm => fs_get cd (b.dir ++ [nm]) fs)

/-- Bucket::remove: delete the file at dir/maxify(key). -/
def Bucket.remove (b : Bucket) (key : String) (fs : Node) :
    Option (Except Error Unit × Node) :=
  (b.maxify key).map (fun nm => fs_remove (b.dir ++ [nm]) fs)

/-- Bucket::list: list the entries of the bucket directory. -/
def Bucket.list (b : Bucket) (fs : Node) : Except Error (List String) :=
  fs_list b.dir fs

/-- Bucket::clear: remove the bucket directory recursively. -/
def Bucket.clear (b : Bucket) (fs : Node) : Except Error Unit × Node :=
  fs_clear b.dir fs

/-- Bucket::exists_within: Path.exists at dir/sub/maxify(key). -/
def Bucket.exists_within (b : Bucket) (key sub : String) (fs : Node) :
    Option Bool :=
  (b.maxify key).map (fun nm => existsAt (b.dir ++ [sub, nm]) fs)

/-- Bucket::put_within: create dir/sub if absent, then write the value at
dir/sub/maxify(key).  Note the source calls maxify only after the
directory-creation step. -/
def Bucket.put_within {V : Type} (cd : Codec V) (b : Bucket) (key : String)
    (v : V) (sub : String) (fs : Node) : Option (Except Error Unit × Node) :=
  if existsAt (b.dir ++ [sub]) fs then
    (b.maxify key).map (fun nm => fs_put cd (b.dir ++ [sub, nm]) v fs)
  else
    match createDirAt (b.dir ++ [sub]) fs with
    | .error k => some (.error (.io k), fs)
    | .ok fs1 => (b.maxify key).map (fun nm => fs_put cd (b.dir ++ [sub, nm]) v fs1)

/-- Bucket::get_within: read and decode the value at dir/sub/maxify(key). -/
def Bucket.get_within {V : Type} (cd : Codec V) (b : Bucket) (key sub : String)
    (fs : Node) : Option (Except Error V) :=
  (b.maxify key).map (fun nm => fs_get cd (b.dir ++ [sub, nm]) fs)

/-- Bucket::remove_within: delete the file at dir/sub/maxify(key). -/
def Bucket.remove_within (b : Bucket) (key sub : String) (fs : Node) :
    Option (Except Error Unit × Node) :=
  (b.maxify key).map (fun nm => fs_remove (b.dir ++ [sub, nm]) fs)

/-- Bucket::list_within: list the entries of dir/sub. -/
def Bucket.list_within (b : Bucket) (sub : String) (fs : Node) :
    Except Error (List String) :=
  fs_list (b.dir ++ [sub]) fs

/-- Bucket::clear_within: remove dir/sub recursively. -/
def Bucket.clear_within (b : Bucket) (sub : String) (fs : Node) :
    Except Error Unit × Node :=
  fs_clear (b.dir ++ [sub]) fs

/-- Fsdb::new: if the base path does not exist, create it and all missing
ancestors; an existing path (even a regular file) is accepted as is. -/
def Fsdb.new (path : List String) (fs : Node) : Except Error (Fsdb × Node) :=
  if existsAt path fs then .ok (⟨path⟩, fs)
  else
    match createDirAllAt path fs with
    | .error k => .error (.io k)
    | .ok fs1 => .ok (⟨path⟩, fs1)

/-- Fsdb::bucket: derive base/name, create that single directory level if
absent, and return the bucket handle with no maximum configured. -/
def Fsdb.bucket (d : Fsdb) (p : String) (fs : Node) :
    Except Error (Bucket × Node) :=
  if existsAt (d.dir ++ [p]) fs then .ok (⟨d.dir ++ [p], none⟩, fs)
  else
    match createDirAt (d.dir ++ [p]) fs with
    | .error k => .error (.io k)
    | .ok fs1 => .ok (⟨d.dir ++ [p], none⟩, fs1)

/-! ### Basic lemmas about the filesystem model -/

theorem lookupEntry_setEntry (es : List (String × Node)) (s : String) (n : Node) :
    lookupEntry s (setEntry es s n) = some n := by
  induction es with
  | nil => simp [setEntry, lookupEntry]
  | cons e rest ih =>
      obtain ⟨k, v⟩ := e
      by_cases h : k = s
      · simp [setEntry, h, lookupEntry]
      · simp [setEntry, h, lookupEntry, ih]

theorem lookupEntry_removeEntry (es : List (String × Node)) (s : String) :
    lookupEntry s (removeEntry es s) = none := by
  induction es with
  | nil => simp [removeEntry, lookupEntry]
  | cons e rest ih =>
      obtain ⟨k, v⟩ := e
      by_cases h : k = s
      · simp [removeEntry, h, ih]
      · simp [removeEntry, h, lookupEntry, ih]

theorem setEntry_setEntry (es : List (String × Node)) (s : String) (a b : Node) :
    setEntry (setEntry es s a) s b = setEntry es s b := by
  induction es with
  | nil => simp [setEntry]
  | cons e rest ih =>
      obtain ⟨k, v⟩ := e
      by_cases h : k = s
      · simp [setEntry, h]
      · simp [setEntry, h, ih]

theorem findAt_append (p q : List String) (fs : Node) :
    findAt (p ++ q) fs = (findAt p fs).bind (findAt q) := by
  induction p generalizing fs with
  | nil => simp [findAt]
  | cons s rest ih =>
      cases fs with
      | file d => simp [findAt]
      | dir es =>
          simp only [List.cons_append, findAt]
          cases lookupEntry s es with
          | none => simp
          | some child => simp [ih]

/-- A successful modifyAt whose handler pins the looked-up value of the
final segment pins the value found at the whole path afterwards. -/
theorem modifyAt_ok_findAt
    (f : String → List (String × Node) → Except IoKind (List (String × Node)))
    (target : Option Node)
    (hf : ∀ s es es', f s es = .ok es' → lookupEntry s es' = target) :
    ∀ (p : List String) (fs fs' : Node), modifyAt f p fs = .ok fs' →
      findAt p fs' = target := by
  intro p
  induction p with
  | nil => intro fs fs' h; simp [modifyAt] at h
  | cons s rest ih =>
      intro fs fs' h
      cases rest with
      | nil =>
          cases fs with
          | file d => simp [modifyAt] at h
          | dir es =>
              cases hfe : f s es with
              | error k => simp [modifyAt, hfe, Except.map] at h
              | ok es' =>
                  simp only [modifyAt, hfe, Except.map, Except.ok.injEq] at h
                  have hl := hf s es es' hfe
                  subst h
                  cases target with
                  | none => simp [findAt, hl]
                  | some n => simp [findAt, hl]
      | cons s2 rest2 =>
          cases fs with
          | file d => simp [modifyAt] at h
          | dir es =>
              simp only [modifyAt] at h
              cases hle : lookupEntry s es with
              | none => simp [hle] at h
              | some child =>
                  simp only [hle] at h
                  cases hm : modifyAt f (s2 :: rest2) child with
                  | error k => simp [hm, Except.map] at h
                  | ok child' =>
                      simp only [hm, Except.map, Except.ok.injEq] at h
                      have := ih child child' hm
                      subst h
                      simp [findAt, lookupEntry_setEntry, this]

/-- If the path does not resolve and the handler fails on a missing final
segment, modifyAt fails. -/
theorem modifyAt_error_of_findAt_none
    (f : String → List (String × Node) → Except IoKind (List (String × Node)))
    (hf : ∀ s es, lookupEntry s es = none → ∃ k, f s es = .error k) :
    ∀ (p : List String) (fs : Node), findAt p fs = none →
      ∃ k, modifyAt f p fs = .error k := by
  intro p
  induction p with
  | nil => intro fs h; simp [findAt] at h
  | cons s rest ih =>
      intro fs h
      cases rest with
      | nil =>
          cases fs with
          | file d => exact ⟨.notADirectory, rfl⟩
          | dir es =>
              simp only [findAt] at h
              cases hle : lookupEntry s es with
              | some n => simp [hle, findAt] at h
              | none =>
                  obtain ⟨k, hk⟩ := hf s es hle
                  exact ⟨k, by simp [modifyAt, hk, Except.map]⟩
      | cons s2 rest2 =>
          cases fs with
          | file d => exact ⟨.notADirectory, rfl⟩
          | dir es =>
              simp only [findAt] at h
              cases hle : lookupEntry s es with
              | none => exact ⟨.notFound, by simp [modifyAt, hle]⟩
              | some child =>
                  rw [hle] at h
                  obtain ⟨k, hk⟩ := ih child h
                  exact ⟨k, by simp [modifyAt, hle, hk, Except.map]⟩

/-- A successful modifyAt on a composite path p ++ q decomposes: the
suffix operation succeeds on the node at p, and afterwards p resolves to
the transformed node. -/
theorem modifyAt_append
    (f : String → List (String × Node) → Except IoKind (List (String × Node)))
    (q : List String) (hq : q ≠ []) :
    ∀ (p : List String) (fs fs' n : Node),
      findAt p fs = some n →
      modifyAt f (p ++ q) fs = .ok fs' →
      ∃ n', modifyAt f q n = .ok n' ∧ findAt p fs' = some n' := by
  intro p
  induction p with
  | nil =>
      intro fs fs' n hf hm
      simp only [findAt, Option.some.injEq] at hf
      subst hf
      exact ⟨fs', by simpa using hm, rfl⟩
  | cons s rest ih =>
      intro fs fs' n hf hm
      cases fs with
      | file d => simp [findAt] at hf
      | dir es =>
          simp only [findAt] at hf
          cases hle : lookupEntry s es with
          | none => simp [hle] at hf
          | some child =>
              simp only [hle] at hf
              cases hrq : rest ++ q with
              | nil => exact absurd (List.append_eq_nil.mp hrq).2 hq
              | cons a as =>
                  simp only [List.cons_append, hrq, modifyAt, hle] at hm
                  cases hmi : modifyAt f (a :: as) child with
                  | error k => simp [hmi, Except.map] at hm
                  | ok child' =>
                      simp only [hmi, Except.map, Except.ok.injEq] at hm
                      obtain ⟨n', h1, h2⟩ := ih child child' n hf (by rw [hrq]; exact hmi)
                      subst hm
                      exact ⟨n', h1, by simp [findAt, lookupEntry_setEntry, h2]⟩

/-- After a successful file write, the path holds that file. -/
theorem writeFileAt_findAt (p : List String) (data : List Nat) (fs fs' : Node)
    (h : writeFileAt p data fs = .ok fs') :
    findAt p fs' = some (Node.file data) := by
  refine modifyAt_ok_findAt _ _ ?_ p fs fs' h
  intro s es es' hok
  cases hle : lookupEntry s es with
  | none =>
      simp only [hle, Except.ok.injEq] at hok
      subst hok
      exact lookupEntry_setEntry es s (Node.file data)
  | some n =>
      cases n with
      | file d =>
          simp only [hle, Except.ok.injEq] at hok
          subst hok
          exact lookupEntry_setEntry es s (Node.file data)
      | dir d => simp [hle] at hok

/-- After a successful create_dir, the path holds an empty directory. -/
theorem createDirAt_findAt (p : List String) (fs fs' : Node)
    (h : createDirAt p fs = .ok fs') :
    findAt p fs' = some (Node.dir []) := by
  refine modifyAt_ok_findAt _ _ ?_ p fs fs' h
  intro s es es' hok
  cases hle : lookupEntry s es with
  | none =>
      simp only [hle, Except.ok.injEq] at hok
      subst hok
      exact lookupEntry_setEntry es s (Node.dir [])
  | some n => simp [hle] at hok

/-- After a successful remove_file, the path resolves to nothing. -/
theorem removeFileAt_findAt (p : List String) (fs fs' : Node)
    (h : removeFileAt p fs = .ok fs') :
    findAt p fs' = none := by
  refine modifyAt_ok_findAt _ _ ?_ p fs fs' h
  intro s es es' hok
  cases hle : lookupEntry s es with
  | none => simp [hle] at hok
  | some n =>
      cases n with
      | file d =>
          simp only [hle, Except.ok.injEq] at hok
          subst hok
          exact lookupEntry_removeEntry es s
      | dir d => simp [hle] at hok

/-- After a successful remove_dir_all, the path resolves to nothing. -/
theorem removeDirAllAt_findAt (p : List String) (fs fs' : Node)
    (h : removeDirAllAt p fs = .ok fs') :
    findAt p fs' = none := by
  refine modifyAt_ok_findAt _ _ ?_ p fs fs' h
  intro s es es' hok
  cases hle : lookupEntry s es with
  | none => simp [hle] at hok
  | some n =>
      cases n with
      | file d => simp [hle] at hok
      | dir d =>
          simp only [hle, Except.ok.injEq] at hok
          subst hok
          exact lookupEntry_removeEntry es s

/-- remove_file on an unresolvable path fails. -/
theorem removeFileAt_error_of_none (p : List String) (fs : Node)
    (h : findAt p fs = none) : ∃ k, removeFileAt p fs = .error k := by
  refine modifyAt_error_of_findAt_none _ ?_ p fs h
  intro s es hle
  exact ⟨.notFound, by simp [hle]⟩

/-- remove_dir_all on an unresolvable path fails. -/
theorem removeDirAllAt_error_of_none (p : List String) (fs : Node)
    (h : findAt p fs = none) : ∃ k, removeDirAllAt p fs = .error k := by
  refine modifyAt_error_of_findAt_none _ ?_ p fs h
  intro s es hle
  exact ⟨.notFound, by simp [hle]⟩

/-! ### Operation-level helper lemmas -/

/-- Successful fs_put stores the encoded bytes at the path. -/
theorem fs_put_ok {V : Type} (cd : Codec V) (p : List String) (v : V)
    (fs fs' : Node) (h : fs_put cd p v fs = (.ok (), fs')) :
    ∃ bs, cd.enc v = some bs ∧ findAt p fs' = some (Node.file bs) := by
  unfold fs_put at h
  cases h1 : writeFileAt p [] fs with
  | error k => simp [h1] at h
  | ok fs1 =>
      simp only [h1] at h
      cases h2 : cd.enc v with
      | none => simp [h2] at h
      | some bs =>
          simp only [h2] at h
          cases h3 : writeFileAt p bs fs1 with
          | error k => simp [h3] at h
          | ok fs2 =>
              simp only [h3, Prod.mk.injEq] at h
              exact ⟨bs, rfl, h.2 ▸ writeFileAt_findAt p bs fs1 fs2 h3⟩

/-- A successful file write below a directory rewrites that directory's
entry for the final segment and touches nothing else in it. -/
theorem writeFileAt_parent (p : List String) (x : String) (data : List Nat)
    (fs fs' : Node) (es : List (String × Node))
    (hp : findAt p fs = some (Node.dir es))
    (h : writeFileAt (p ++ [x]) data fs = .ok fs') :
    findAt p fs' = some (Node.dir (setEntry es x (Node.file data))) := by
  obtain ⟨n', h1, h2⟩ := modifyAt_append _ [x] (by simp) p fs fs' (Node.dir es) hp h
  simp only [modifyAt] at h1
  cases hle : lookupEntry x es with
  | none =>
      simp only [hle, Except.map, Except.ok.injEq] at h1
      subst h1
      exact h2
  | some n =>
      cases n with
      | file d =>
          simp only [hle, Except.map, Except.ok.injEq] at h1
          subst h1
          exact h2
      | dir d => simp [hle, Except.map] at h1

/-- Any outcome of fs_put below an existing directory leaves that
directory in place. -/
theorem fs_put_parent_dir {V : Type} (cd : Codec V) (p : List String)
    (x : String) (v : V) (fs fs' : Node) (es : List (String × Node))
    (r : Except Error Unit)
    (hp : findAt p fs = some (Node.dir es))
    (h : fs_put cd (p ++ [x]) v fs = (r, fs')) :
    ∃ es', findAt p fs' = some (Node.dir es') := by
  unfold fs_put at h
  cases h1 : writeFileAt (p ++ [x]) [] fs with
  | error k =>
      simp only [h1, Prod.mk.injEq] at h
      exact ⟨es, h.2 ▸ hp⟩
  | ok fs1 =>
      simp only [h1] at h
      have hp1 := writeFileAt_parent p x [] fs fs1 es hp h1
      cases h2 : cd.enc v with
      | none =>
          simp only [h2, Prod.mk.injEq] at h
          exact ⟨_, h.2 ▸ hp1⟩
      | some bs =>
          simp only [h2] at h
          cases h3 : writeFileAt (p ++ [x]) bs fs1 with
          | error k =>
              simp only [h3, Prod.mk.injEq] at h
              exact ⟨_, h.2 ▸ hp1⟩
          | ok fs2 =>
              simp only [h3, Prod.mk.injEq] at h
              exact ⟨_, h.2 ▸ writeFileAt_parent p x bs fs1 fs2 _ hp1 h3⟩

/-- Successful fs_put below a directory: the entry list afterwards. -/
theorem fs_put_ok_parent {V : Type} (cd : Codec V) (p : List String)
    (x : String) (v : V) (fs fs' : Node) (es : List (String × Node))
    (hp : findAt p fs = some (Node.dir es))
    (h : fs_put cd (p ++ [x]) v fs = (.ok (), fs')) :
    ∃ bs, cd.enc v = some bs ∧
      findAt p fs' = some (Node.dir (setEntry es x (Node.file bs))) := by
  unfold fs_put at h
  cases h1 : writeFileAt (p ++ [x]) [] fs with
  | error k => simp [h1] at h
  | ok fs1 =>
      simp only [h1] at h
      have hp1 := writeFileAt_parent p x [] fs fs1 es hp h1
      cases h2 : cd.enc v with
      | none => simp [h2] at h
      | some bs =>
          simp only [h2] at h
          cases h3 : writeFileAt (p ++ [x]) bs fs1 with
          | error k => simp [h3] at h
          | ok fs2 =>
              simp only [h3, Prod.mk.injEq] at h
              have := writeFileAt_parent p x bs fs1 fs2 _ hp1 h3
              rw [setEntry_setEntry] at this
              exact ⟨bs, rfl, h.2 ▸ this⟩

/-- fs_get on a path that holds decodable bytes. -/
theorem fs_get_file {V : Type} (cd : Codec V) (p : List String) (fs : Node)
    (bs : List Nat) (v : V)
    (hf : findAt p fs = some (Node.file bs)) (hd : cd.dec bs = some v) :
    fs_get cd p fs = .ok v := by
  simp [fs_get, hf, hd]

/-- fs_get on an unresolvable path: not-found I/O error. -/
theorem fs_get_none {V : Type} (cd : Codec V) (p : List String) (fs : Node)
    (hf : findAt p fs = none) : fs_get cd p fs = .error (.io .notFound) := by
  simp [fs_get, hf]

/-! ### Lemmas about the model of Rust String.truncate -/

/-- Truncating to at least the byte length is a no-op. -/
theorem truncChars_of_le (cs : List Char) (n : Nat) (h : utf8Len cs ≤ n) :
    truncChars cs n = some cs := by
  induction cs generalizing n with
  | nil => cases n <;> simp [truncChars]
  | cons c rest ih =>
      cases n with
      | zero =>
          exfalso
          have hpos := Char.utf8Size_pos c
          simp only [utf8Len, Nat.le_zero] at h
          omega
      | succ m =>
          simp only [utf8Len] at h
          have hsz : c.utf8Size ≤ m + 1 := by omega
          simp only [truncChars, if_pos hsz]
          rw [ih _ (by omega)]
          rfl

/-- A successful truncation returns a prefix of the characters whose
byte length is exactly min n (byte length of the input). -/
theorem truncChars_some (cs : List Char) (n : Nat) (r : List Char)
    (h : truncChars cs n = some r) :
    r.IsPrefix cs ∧ utf8Len r = min n (utf8Len cs) := by
  induction cs generalizing n r with
  | nil =>
      cases n with
      | zero =>
          simp only [truncChars, Option.some.injEq] at h
          subst h
          simp [utf8Len]
      | succ m =>
          simp only [truncChars, Option.some.injEq] at h
          subst h
          simp [utf8Len]
  | cons c rest ih =>
      cases n with
      | zero =>
          simp only [truncChars, Option.some.injEq] at h
          subst h
          exact ⟨⟨c :: rest, rfl⟩, by simp [utf8Len]⟩
      | succ m =>
          by_cases hsz : c.utf8Size ≤ m + 1
          · simp only [truncChars, if_pos hsz] at h
            cases hr : truncChars rest (m + 1 - c.utf8Size) with
            | none => rw [hr] at h; simp at h
            | some r0 =>
                rw [hr] at h
                simp only [Option.map_some', Option.some.injEq] at h
                subst h
                obtain ⟨⟨t, ht⟩, hlen⟩ := ih _ _ hr
                refine ⟨⟨t, by simp [← ht]⟩, ?_⟩
                simp only [utf8Len, hlen]
                omega
          · simp only [truncChars, if_neg hsz] at h
            exact absurd h (by simp)

/-- Truncation panics only when n cuts a character: n is strictly below
the byte length and no character prefix has byte length exactly n. -/
theorem truncChars_none (cs : List Char) (n : Nat)
    (h : truncChars cs n = none) :
    n < utf8Len cs ∧ ∀ i, utf8Len (cs.take i) ≠ n := by
  induction cs generalizing n with
  | nil => cases n <;> simp [truncChars] at h
  | cons c rest ih =>
      cases n with
      | zero => simp [truncChars] at h
      | succ m =>
          by_cases hsz : c.utf8Size ≤ m + 1
          · simp only [truncChars, if_pos hsz] at h
            cases hr : truncChars rest (m + 1 - c.utf8Size) with
            | some r0 => rw [hr] at h; simp at h
            | none =>
                obtain ⟨hlt, hni⟩ := ih _ hr
                constructor
                · simp only [utf8Len]
                  omega
                · intro i
                  cases i with
                  | zero => simp [utf8Len]
                  | succ j =>
                      simp only [List.take_succ_cons, utf8Len]
                      have := hni j
                      omega
          · have hpos := Char.utf8Size_pos c
            constructor
            · simp only [utf8Len]
              omega
            · intro i
              cases i with
              | zero => simp [utf8Len]
              | succ j =>
                  simp only [List.take_succ_cons, utf8Len]
                  omega

/-! ### Concrete codecs used to instantiate the abstract msgpack codec -/

/-- A simple total round-tripping codec on natural numbers, standing in
for a concrete serde value type. -/
def natCodec : Codec Nat :=
  ⟨fun n => some [n], fun l => match l with | [n] => some n | _ => none⟩

/-- A codec whose encoder always fails, standing in for a value shape the
serializer rejects. -/
def failCodec : Codec Nat := ⟨fun _ => none, fun _ => none⟩

/-! ### C1: key normalization -/

/-- C1, counterexample: with maximum length 1 the claim demands the first
character of "éa" (the two-byte character é), but maxify, which is Rust
String.truncate, truncates by bytes and panics on the mid-character cut,
so it is neither character-count truncation nor total. -/
theorem maxify_char_claim_counterexample :
    Bucket.maxify ⟨[], some 1⟩ "éa" = none ∧ ("éa").data.take 1 = ['é'] := by
  constructor
  · decide
  · decide

/-- C1 as amended: with no maximum configured maxify returns the key
unchanged; with maximum n it truncates by UTF-8 bytes, not characters:
it is the identity when n is at least the key's byte length, any
successful result is a character prefix of the key of byte length
min n (byte length), and it panics exactly when n falls strictly inside
a multi-byte character (n below the byte length and no character prefix
of byte length n). -/
theorem maxify_byte_truncation (b : Bucket) (k : String) :
    (b.max_file_name = none → b.maxify k = some k) ∧
    (∀ n, b.max_file_name = some n →
      (utf8Len k.data ≤ n → b.maxify k = some k) ∧
      (∀ r, b.maxify k = some r →
        r.data.IsPrefix k.data ∧ utf8Len r.data = min n (utf8Len k.data)) ∧
      (b.maxify k = none →
        n < utf8Len k.data ∧ ∀ i, utf8Len (k.data.take i) ≠ n)) := by
  constructor
  · intro h
    simp [Bucket.maxify, h]
  · intro n hn
    refine ⟨?_, ?_, ?_⟩
    · intro hle
      simp [Bucket.maxify, hn, rustTruncate, truncChars_of_le _ _ hle]
    · intro r hr
      simp only [Bucket.maxify, hn, rustTruncate] at hr
      cases ht : truncChars k.data n with
      | none => rw [ht] at hr; simp at hr
      | some r0 =>
          rw [ht] at hr
          simp only [Option.map_some', Option.some.injEq] at hr
          subst hr
          exact truncChars_some _ _ _ ht
    · intro hnone
      simp only [Bucket.maxify, hn, rustTruncate] at hnone
      cases ht : truncChars k.data n with
      | some r0 => rw [ht] at hnone; simp at hnone
      | none => exact truncChars_none _ _ ht

/-- Witness for C1: the amended theorem evaluated on concrete buckets and
keys, discharging each hypothesis. -/
theorem maxify_byte_truncation_witness :
    Bucket.maxify ⟨[], none⟩ "x" = some "x" ∧
    Bucket.maxify ⟨[], some 4⟩ "éa" = some "éa" ∧
    (("é").data.IsPrefix ("éa").data ∧
      utf8Len ("é").data = min 2 (utf8Len ("éa").data)) ∧
    (1 < utf8Len ("éa").data ∧ ∀ i, utf8Len (("éa").data.take i) ≠ 1) :=
  ⟨(maxify_byte_truncation ⟨[], none⟩ "x").1 rfl,
   ((maxify_byte_truncation ⟨[], some 4⟩ "éa").2 4 rfl).1 (by decide),
   ((maxify_byte_truncation ⟨[], some 2⟩ "éa").2 2 rfl).2.1 "é" (by decide),
   ((maxify_byte_truncation ⟨[], some 1⟩ "éa").2 1 rfl).2.2 (by decide)⟩

/-! ### C2: put/get round-trip -/

/-- C2: for a value the codec round-trips, a successful put(k, v)
followed by get(k) on the same bucket succeeds and returns v. -/
theorem put_get_roundtrip {V : Type} (cd : Codec V) (b : Bucket)
    (key : String) (v : V) (fs fs1 : Node)
    (hrt : ∀ bs, cd.enc v = some bs → cd.dec bs = some v)
    (hput : Bucket.put cd b key v fs = some (.ok (), fs1)) :
    Bucket.get cd b key fs1 = some (.ok v) := by
  unfold Bucket.put at hput
  cases hm : b.maxify key with
  | none => rw [hm] at hput; simp at hput
  | some nm =>
      rw [hm] at hput
      simp only [Option.map_some', Option.some.injEq] at hput
      obtain ⟨bs, henc, hfind⟩ := fs_put_ok cd _ v fs fs1 hput
      unfold Bucket.get
      rw [hm]
      simp only [Option.map_some', Option.some.injEq]
      rw [fs_get_file cd _ fs1 bs v hfind (hrt bs henc)]

/-- Witness for C2 at a concrete bucket, key, value and filesystem. -/
theorem put_get_roundtrip_witness :
    Bucket.get natCodec ⟨["b"], none⟩ "k"
      (Node.dir [("b", Node.dir [("k", Node.file [5])])]) = some (.ok 5) :=
  put_get_roundtrip natCodec ⟨["b"], none⟩ "k" 5
    (Node.dir [("b", Node.dir [])]) _
    (fun bs h => by cases h; rfl) rfl

/-! ### C3: existence after put and after remove -/

/-- C3: immediately after a successful put(k, v), exists(k) is true;
immediately after a successful remove(k), exists(k) is false. -/
theorem put_remove_exists_consistency {V : Type} (cd : Codec V) (b : Bucket)
    (key : String) (v : V) (fs fs1 gs gs1 : Node) :
    (Bucket.put cd b key v fs = some (.ok (), fs1) →
      Bucket.exists b key fs1 = some true) ∧
    (Bucket.remove b key gs = some (.ok (), gs1) →
      Bucket.exists b key gs1 = some false) := by
  constructor
  · intro hput
    unfold Bucket.put at hput
    cases hm : b.maxify key with
    | none => rw [hm] at hput; simp at hput
    | some nm =>
        rw [hm] at hput
        simp only [Option.map_some', Option.some.injEq] at hput
        obtain ⟨bs, henc, hfind⟩ := fs_put_ok cd _ v fs fs1 hput
        simp [Bucket.exists, hm, existsAt, hfind]
  · intro hrem
    unfold Bucket.remove at hrem
    cases hm : b.maxify key with
    | none => rw [hm] at hrem; simp at hrem
    | some nm =>
        rw [hm] at hrem
        simp only [Option.map_some', Option.some.injEq] at hrem
        unfold fs_remove at hrem
        cases hr : removeFileAt (b.dir ++ [nm]) gs with
        | error k => simp [hr] at hrem
        | ok gsr =>
            simp only [hr, Prod.mk.injEq] at hrem
            have hnone := removeFileAt_findAt _ gs gsr hr
            simp [Bucket.exists, hm, existsAt, hrem.2 ▸ hnone]

/-- Witness for C3: a concrete put makes the key exist, a concrete remove
makes it not exist. -/
theorem put_remove_exists_consistency_witness :
    Bucket.exists ⟨["b"], none⟩ "k"
      (Node.dir [("b", Node.dir [("k", Node.file [5])])]) = some true ∧
    Bucket.exists ⟨["b"], none⟩ "k"
      (Node.dir [("b", Node.dir [])]) = some false :=
  ⟨(put_remove_exists_consistency natCodec ⟨["b"], none⟩ "k" 5
      (Node.dir [("b", Node.dir [])])
      (Node.dir [("b", Node.dir [("k", Node.file [5])])])
      (Node.dir []) (Node.dir [])).1 rfl,
   (put_remove_exists_consistency natCodec ⟨["b"], none⟩ "k" 5
      (Node.dir []) (Node.dir [])
      (Node.dir [("b", Node.dir [("k", Node.file [5])])])
      (Node.dir [("b", Node.dir [])])).2 rfl⟩

/-! ### C4: exists never fails and probes entries -/

/-- The claim's reading of existence at a path: a regular file is
present there. -/
def fileExistsAt (p : List String) (fs : Node) : Bool :=
  match findAt p fs with
  | some (Node.file _) => true
  | _ => false

/-- C4, counterexample: exists(k) is implemented with Path.exists, which
is true for a directory entry as well; here a sub-namespace directory
named "sub" makes exists("sub") true although no file is at that path.
Moreover exists is not total for every key: with maximum length 1 the
probe of key "éa" panics in maxify instead of returning a boolean. -/
theorem exists_file_claim_counterexample :
    Bucket.exists ⟨["b"], none⟩ "sub"
      (Node.dir [("b", Node.dir [("sub", Node.dir [])])]) = some true ∧
    fileExistsAt ["b", "sub"]
      (Node.dir [("b", Node.dir [("sub", Node.dir [])])]) = false ∧
    Bucket.exists ⟨["b"], some 1⟩ "éa"
      (Node.dir [("b", Node.dir [])]) = none := by
  refine ⟨rfl, rfl, by decide⟩

/-- C4 as amended: whenever key truncation succeeds (always, in
particular, when no maximum is configured), exists(k) returns a boolean,
true iff an entry (file or directory) resolves at bucket_dir/maxify(k);
exists_within(k, sub) likewise probes bucket_dir/sub/maxify(k), and in
particular returns false when the sub-directory is missing. -/
theorem exists_entry_semantics (b : Bucket) (key sub nm : String) (fs : Node)
    (h : b.maxify key = some nm) :
    Bucket.exists b key fs = some (existsAt (b.dir ++ [nm]) fs) ∧
    Bucket.exists_within b key sub fs = some (existsAt (b.dir ++ [sub, nm]) fs) ∧
    (findAt (b.dir ++ [sub]) fs = none →
      Bucket.exists_within b key sub fs = some false) := by
  refine ⟨by simp [Bucket.exists, h], by simp [Bucket.exists_within, h], ?_⟩
  intro hmiss
  have hmiss2 : findAt (b.dir ++ [sub, nm]) fs = none := by
    have hx := findAt_append (b.dir ++ [sub]) [nm] fs
    rw [hmiss] at hx
    simpa using hx
  simp [Bucket.exists_within, h, existsAt, hmiss2]

/-- Witness for C4 at a concrete bucket and filesystem. -/
theorem exists_entry_semantics_witness :
    Bucket.exists ⟨["b"], none⟩ "k"
      (Node.dir [("b", Node.dir [])]) =
      some (existsAt (["b"] ++ ["k"]) (Node.dir [("b", Node.dir [])])) ∧
    Bucket.exists_within ⟨["b"], none⟩ "k" "s"
      (Node.dir [("b", Node.dir [])]) = some false :=
  ⟨(exists_entry_semantics ⟨["b"], none⟩ "k" "s" "k"
      (Node.dir [("b", Node.dir [])]) rfl).1,
   (exists_entry_semantics ⟨["b"], none⟩ "k" "s" "k"
      (Node.dir [("b", Node.dir [])]) rfl).2.2 rfl⟩

/-! ### C5: within-operations against a missing sub-directory -/

/-- C5: against a missing sub-directory, only put_within creates it (on
success the directory is present); get_within, list_within, remove_within
and clear_within fail with an I/O error leaving the filesystem unchanged,
and exists_within returns false. -/
theorem within_missing_sub {V : Type} (cd : Codec V) (b : Bucket)
    (key sub nm : String) (v : V) (fs : Node)
    (hnm : b.maxify key = some nm)
    (hmiss : findAt (b.dir ++ [sub]) fs = none) :
    (∀ fs', Bucket.put_within cd b key v sub fs = some (.ok (), fs') →
      ∃ es, findAt (b.dir ++ [sub]) fs' = some (Node.dir es)) ∧
    Bucket.get_within cd b key sub fs = some (.error (.io .notFound)) ∧
    Bucket.list_within b sub fs = .error (.io .notFound) ∧
    (∃ k, Bucket.remove_within b key sub fs = some (.error (.io k), fs)) ∧
    (∃ k, Bucket.clear_within b sub fs = (.error (.io k), fs)) ∧
    Bucket.exists_within b key sub fs = some false := by
  have hex : existsAt (b.dir ++ [sub]) fs = false := by simp [existsAt, hmiss]
  have hneg : ¬ existsAt (b.dir ++ [sub]) fs = true := by simp [hex]
  have hmiss2 : findAt (b.dir ++ [sub, nm]) fs = none := by
    have hx := findAt_append (b.dir ++ [sub]) [nm] fs
    rw [hmiss] at hx
    simpa using hx
  refine ⟨?_, ?_, ?_, ?_, ?_, ?_⟩
  · intro fs' hput
    unfold Bucket.put_within at hput
    rw [if_neg hneg] at hput
    cases hc : createDirAt (b.dir ++ [sub]) fs with
    | error k => rw [hc] at hput; simp at hput
    | ok fsc =>
        rw [hc, hnm] at hput
        simp only [Option.map_some', Option.some.injEq] at hput
        have hdir := createDirAt_findAt _ fs fsc hc
        rw [show b.dir ++ [sub, nm] = (b.dir ++ [sub]) ++ [nm] by simp] at hput
        exact fs_put_parent_dir cd (b.dir ++ [sub]) nm v fsc fs' [] (.ok ()) hdir hput
  · simp only [Bucket.get_within, hnm, Option.map_some']
    rw [fs_get_none cd _ fs hmiss2]
  · simp [Bucket.list_within, fs_list, readDirAt, hmiss]
  · obtain ⟨k, hk⟩ := removeFileAt_error_of_none (b.dir ++ [sub, nm]) fs hmiss2
    exact ⟨k, by simp [Bucket.remove_within, hnm, fs_remove, hk]⟩
  · obtain ⟨k, hk⟩ := removeDirAllAt_error_of_none (b.dir ++ [sub]) fs hmiss
    exact ⟨k, by simp [Bucket.clear_within, fs_clear, hk]⟩
  · simp [Bucket.exists_within, hnm, existsAt, hmiss2]

/-- Witness for C5 at a concrete bucket and filesystem. -/
theorem within_missing_sub_witness :
    (∃ es, findAt (["b"] ++ ["s"])
      (Node.dir [("b", Node.dir [("s", Node.dir [("k", Node.file [5])])])]) =
        some (Node.dir es)) ∧
    Bucket.get_within natCodec ⟨["b"], none⟩ "k" "s"
      (Node.dir [("b", Node.dir [])]) = some (.error (.io .notFound)) ∧
    (∃ k, Bucket.clear_within ⟨["b"], none⟩ "s"
      (Node.dir [("b", Node.dir [])]) =
        (.error (.io k), Node.dir [("b", Node.dir [])])) :=
  have T := within_missing_sub natCodec ⟨["b"], none⟩ "k" "s" "k" 5
    (Node.dir [("b", Node.dir [])]) rfl rfl
  ⟨T.1 (Node.dir [("b", Node.dir [("s", Node.dir [("k", Node.file [5])])])]) rfl,
   T.2.1, T.2.2.2.2.1⟩

/-! ### C6: sub-namespace isolation -/

/-- A successful put_within stored the encoded bytes at
dir/sub/maxify(key); the key truncation and the encoding succeeded. -/
theorem put_within_ok {V : Type} (cd : Codec V) (b : Bucket) (key sub : String)
    (v : V) (fs fs1 : Node)
    (h : Bucket.put_within cd b key v sub fs = some (.ok (), fs1)) :
    ∃ nm bs, b.maxify key = some nm ∧ cd.enc v = some bs ∧
      findAt (b.dir ++ [sub, nm]) fs1 = some (Node.file bs) := by
  unfold Bucket.put_within at h
  by_cases hex : existsAt (b.dir ++ [sub]) fs
  · rw [if_pos hex] at h
    cases hm : b.maxify key with
    | none => rw [hm] at h; simp at h
    | some nm =>
        rw [hm] at h
        simp only [Option.map_some', Option.some.injEq] at h
        obtain ⟨bs, henc, hfind⟩ := fs_put_ok cd _ v fs fs1 h
        exact ⟨nm, bs, rfl, henc, hfind⟩
  · rw [if_neg hex] at h
    cases hc : createDirAt (b.dir ++ [sub]) fs with
    | error k => rw [hc] at h; simp at h
    | ok fsc =>
        rw [hc] at h
        cases hm : b.maxify key with
        | none => rw [hm] at h; simp at h
        | some nm =>
            rw [hm] at h
            simp only [Option.map_some', Option.some.injEq] at h
            obtain ⟨bs, henc, hfind⟩ := fs_put_ok cd _ v fsc fs1 h
            exact ⟨nm, bs, rfl, henc, hfind⟩

/-- C6: after a successful put_within(k, v, sub), get_within(k, sub)
returns v, while the un-scoped get(k) fails with a not-found I/O error
provided no top-level entry named maxify(k) is present. -/
theorem within_isolation {V : Type} (cd : Codec V) (b : Bucket)
    (key sub nm : String) (v : V) (fs fs1 : Node)
    (hnm : b.maxify key = some nm)
    (hrt : ∀ bs, cd.enc v = some bs → cd.dec bs = some v)
    (hput : Bucket.put_within cd b key v sub fs = some (.ok (), fs1))
    (htop : findAt (b.dir ++ [nm]) fs1 = none) :
    Bucket.get_within cd b key sub fs1 = some (.ok v) ∧
    Bucket.get cd b key fs1 = some (.error (.io .notFound)) := by
  obtain ⟨nm', bs, hnm', henc, hfind⟩ := put_within_ok cd b key sub v fs fs1 hput
  rw [hnm] at hnm'
  injection hnm' with hnmeq
  subst hnmeq
  constructor
  · simp only [Bucket.get_within, hnm, Option.map_some']
    rw [fs_get_file cd _ fs1 bs v hfind (hrt bs henc)]
  · simp only [Bucket.get, hnm, Option.map_some']
    rw [fs_get_none cd _ fs1 htop]

/-- Witness for C6 at a concrete bucket, key, value and filesystem. -/
theorem within_isolation_witness :
    Bucket.get_within natCodec ⟨["b"], none⟩ "k" "s"
      (Node.dir [("b", Node.dir [("s", Node.dir [("k", Node.file [5])])])]) =
        some (.ok 5) ∧
    Bucket.get natCodec ⟨["b"], none⟩ "k"
      (Node.dir [("b", Node.dir [("s", Node.dir [("k", Node.file [5])])])]) =
        some (.error (.io .notFound)) :=
  within_isolation natCodec ⟨["b"], none⟩ "k" "s" "k" 5
    (Node.dir [("b", Node.dir [])])
    (Node.dir [("b", Node.dir [("s", Node.dir [("k", Node.file [5])])])])
    rfl (fun bs h => by cases h; rfl) rfl rfl

/-! ### C9: put_within failure behaviour -/

/-- C9: if the directory-creation step of put_within fails, the
directory-creation I/O error is returned and the filesystem is unchanged
(the write step never ran); if a later step fails after the directory was
created, the created sub-directory persists. -/
theorem put_within_failure_semantics {V : Type} (cd : Codec V) (b : Bucket)
    (key sub : String) (v : V) (fs : Node)
    (hmiss : existsAt (b.dir ++ [sub]) fs = false) :
    (∀ k, createDirAt (b.dir ++ [sub]) fs = .error k →
      Bucket.put_within cd b key v sub fs = some (.error (.io k), fs)) ∧
    (∀ fsc, createDirAt (b.dir ++ [sub]) fs = .ok fsc →
      ∀ e fs2, Bucket.put_within cd b key v sub fs = some (.error e, fs2) →
        ∃ es, findAt (b.dir ++ [sub]) fs2 = some (Node.dir es)) := by
  have hneg : ¬ existsAt (b.dir ++ [sub]) fs = true := by simp [hmiss]
  constructor
  · intro k hk
    unfold Bucket.put_within
    rw [if_neg hneg, hk]
  · intro fsc hc e fs2 hput
    unfold Bucket.put_within at hput
    rw [if_neg hneg, hc] at hput
    cases hm : b.maxify key with
    | none => rw [hm] at hput; simp at hput
    | some nm =>
        rw [hm] at hput
        simp only [Option.map_some', Option.some.injEq] at hput
        have hdir := createDirAt_findAt _ fs fsc hc
        rw [show b.dir ++ [sub, nm] = (b.dir ++ [sub]) ++ [nm] by simp] at hput
        exact fs_put_parent_dir cd (b.dir ++ [sub]) nm v fsc fs2 [] (.error e) hdir hput

/-- Witness for C9: a failing directory creation returns its error with
the filesystem unchanged; a failing encode after successful directory
creation leaves the created sub-directory in place. -/
theorem put_within_failure_semantics_witness :
    Bucket.put_within natCodec ⟨["b"], none⟩ "k" 5 "s" (Node.dir []) =
      some (.error (.io .notFound), Node.dir []) ∧
    (∃ es, findAt (["b"] ++ ["s"])
      (Node.dir [("b", Node.dir [("s", Node.dir [("k", Node.file [])])])]) =
        some (Node.dir es)) :=
  ⟨(put_within_failure_semantics natCodec ⟨["b"], none⟩ "k" "s" 5
      (Node.dir []) rfl).1 .notFound rfl,
   (put_within_failure_semantics failCodec ⟨["b"], none⟩ "k" "s" 5
      (Node.dir [("b", Node.dir [])]) rfl).2
      (Node.dir [("b", Node.dir [("s", Node.dir [])])]) rfl .encode
      (Node.dir [("b", Node.dir [("s", Node.dir [("k", Node.file [])])])]) rfl⟩

/-! ### C7: storage under the truncated name -/

/-- C7, counterexample: with maximum length 2 the claim demands the
stored file name be the first 2 characters of "éa" (which are é and a),
but the stored name is the 2-byte truncation "é"; list returns "é". -/
theorem truncation_char_store_counterexample :
    Bucket.put natCodec ⟨["b"], some 2⟩ "éa" 5 (Node.dir [("b", Node.dir [])]) =
      some (.ok (), Node.dir [("b", Node.dir [("é", Node.file [5])])]) ∧
    Bucket.list ⟨["b"], some 2⟩
      (Node.dir [("b", Node.dir [("é", Node.file [5])])]) = .ok ["é"] ∧
    ("éa").data.take 2 = ['é', 'a'] ∧ ("é" : String) ≠ "éa" := by
  refine ⟨rfl, rfl, by decide, by decide⟩

/-- C7 as amended: with a maximum configured, a successful put stores the
value under the file name maxify(k) — the byte-length truncation of k —
which a subsequent list() returns in place of the original key, and a
subsequent get with the same original key re-truncates to the same stored
name and returns the stored value. -/
theorem truncation_store_list_get {V : Type} (cd : Codec V) (b : Bucket)
    (n : Nat) (key nm : String) (v : V) (fs fs1 : Node)
    (_hmax : b.max_file_name = some n)
    (hnm : b.maxify key = some nm)
    (hrt : ∀ bs, cd.enc v = some bs → cd.dec bs = some v)
    (hdir : findAt b.dir fs = some (Node.dir []))
    (hput : Bucket.put cd b key v fs = some (.ok (), fs1)) :
    Bucket.list b fs1 = .ok [nm] ∧
    Bucket.get cd b key fs1 = some (.ok v) := by
  unfold Bucket.put at hput
  rw [hnm] at hput
  simp only [Option.map_some', Option.some.injEq] at hput
  obtain ⟨bs, henc, hfind⟩ := fs_put_ok cd _ v fs fs1 hput
  obtain ⟨bs', henc', hpar⟩ := fs_put_ok_parent cd b.dir nm v fs fs1 [] hdir hput
  constructor
  · simp only [Bucket.list, fs_list, readDirAt, hpar]
    simp [setEntry]
  · simp only [Bucket.get, hnm, Option.map_some']
    rw [fs_get_file cd _ fs1 bs v hfind (hrt bs henc)]

/-- Witness for C7: the spec's concrete truncation scenario, maximum 8
and key "keythatisverylong" stored as "keythati". -/
theorem truncation_store_list_get_witness :
    Bucket.list ⟨["b"], some 8⟩
      (Node.dir [("b", Node.dir [("keythati", Node.file [1])])]) =
        .ok ["keythati"] ∧
    Bucket.get natCodec ⟨["b"], some 8⟩ "keythatisverylong"
      (Node.dir [("b", Node.dir [("keythati", Node.file [1])])]) =
        some (.ok 1) :=
  truncation_store_list_get natCodec ⟨["b"], some 8⟩ 8 "keythatisverylong"
    "keythati" 1
    (Node.dir [("b", Node.dir [])])
    (Node.dir [("b", Node.dir [("keythati", Node.file [1])])])
    rfl (by decide) (fun bs h => by cases h; rfl) rfl rfl

/-! ### C8: clear removes the bucket directory -/

/-- C8: after a successful clear(), nothing resolves at or below the
bucket directory (it is not recreated), and a subsequent list() fails
with a not-found I/O error. -/
theorem clear_removes_bucket_dir (b : Bucket) (fs fs1 : Node)
    (h : Bucket.clear b fs = (.ok (), fs1)) :
    (∀ q, findAt (b.dir ++ q) fs1 = none) ∧
    Bucket.list b fs1 = .error (.io .notFound) := by
  unfold Bucket.clear fs_clear at h
  cases hr : removeDirAllAt b.dir fs with
  | error k => simp [hr] at h
  | ok fsr =>
      simp only [hr, Prod.mk.injEq] at h
      have hnone : findAt b.dir fs1 = none :=
        h.2 ▸ removeDirAllAt_findAt b.dir fs fsr hr
      refine ⟨?_, ?_⟩
      · intro q
        rw [findAt_append, hnone]
        rfl
      · simp [Bucket.list, fs_list, readDirAt, hnone]

/-- Witness for C8: clearing a bucket holding a sub-namespace with a file
removes the bucket directory, the sub-directory and the file, and list()
then fails. -/
theorem clear_removes_bucket_dir_witness :
    findAt (["b"] ++ ["s", "k"]) (Node.dir []) = none ∧
    Bucket.list ⟨["b"], none⟩ (Node.dir []) = .error (.io .notFound) :=
  have T := clear_removes_bucket_dir ⟨["b"], none⟩
    (Node.dir [("b", Node.dir [("s", Node.dir [("k", Node.file [5])])])])
    (Node.dir []) rfl
  ⟨T.1 ["s", "k"], T.2⟩

/-! ### C10: Fsdb::new on an existing path -/

/-- C10: Fsdb::new on an already existing path returns Ok with the
filesystem untouched and without checking the path is a directory; when
the path is an existing regular file, every subsequent bucket() call on
the returned store fails with an I/O error. -/
theorem new_existing_path_bucket_io_error (path : List String) (fs : Node) :
    (existsAt path fs = true → Fsdb.new path fs = .ok (⟨path⟩, fs)) ∧
    (∀ d, findAt path fs = some (Node.file d) →
      ∀ p, ∃ k, Fsdb.bucket ⟨path⟩ p fs = .error (.io k)) := by
  constructor
  · intro h
    simp [Fsdb.new, h]
  · intro d hf p
    have hnone : findAt (path ++ [p]) fs = none := by
      rw [findAt_append, hf]
      rfl
    have hex : existsAt (path ++ [p]) fs = false := by simp [existsAt, hnone]
    cases hc : createDirAt (path ++ [p]) fs with
    | error k =>
        refine ⟨k, ?_⟩
        simp [Fsdb.bucket, hex, hc]
    | ok fsc =>
        exfalso
        unfold createDirAt at hc
        obtain ⟨n', h1, h2⟩ :=
          modifyAt_append _ [p] (by simp) path fs fsc (Node.file d) hf hc
        simp [modifyAt] at h1

/-- Witness for C10: a store opened over an existing regular file "db" is
accepted by Fsdb::new, and bucket() on it fails. -/
theorem new_existing_path_bucket_io_error_witness :
    Fsdb.new ["db"] (Node.dir [("db", Node.file [])]) =
      .ok (⟨["db"]⟩, Node.dir [("db", Node.file [])]) ∧
    (∃ k, Fsdb.bucket ⟨["db"]⟩ "hi" (Node.dir [("db", Node.file [])]) =
      .error (.io k)) :=
  have T := new_existing_path_bucket_io_error ["db"]
    (Node.dir [("db", Node.file [])])
  ⟨T.1 rfl, T.2 [] rfl "hi"⟩
